import Mathlib

/-!
Verification development for the stormatter repository.

The lexer (src/src/stormatter/lexer.py), the token type
(src/src/stormatter/token.py), the legacy string-building formatter
(src/src/stormatter/formatter.py) and the current token-pair-building
formatter (src/src/stormatter/formatting/formatter.py) are shallowly
embedded below.  Python strings are modelled as `List Char`; the
Unicode-aware character classification functions of Python are modelled
on their ASCII fragment, which is all the repository's own inputs and
all concrete test vectors exercise.  Python's clamping slice
`s[a:b]` is modelled by `pySlice`.  Each `while` loop of the source is
modelled by a structurally recursive function with an explicit fuel
argument that provably never runs out (each loop strictly advances an
index bounded by the input length, so `source.length` fuel suffices).
-/

namespace Stormatter

/-- ASCII fragment of Python's `str.isspace`. -/
def pyIsSpace (c : Char) : Bool :=
  c == ' ' || c == '\t' || c == '\n' || c == '\r' || c == '\x0b' || c == '\x0c'

/-- ASCII fragment of Python's `str.isalpha`. -/
def pyIsAlpha (c : Char) : Bool :=
  ('a' ≤ c && c ≤ 'z') || ('A' ≤ c && c ≤ 'Z')

/-- ASCII fragment of Python's `str.isdigit`. -/
def pyIsDigit (c : Char) : Bool :=
  '0' ≤ c && c ≤ '9'

/-- ASCII fragment of Python's `str.isalnum`. -/
def pyIsAlnum (c : Char) : Bool :=
  pyIsAlpha c || pyIsDigit c

/-- ASCII fragment of Python's `str.lower`, applied characterwise. -/
def pyToLower (c : Char) : Char :=
  if 'A' ≤ c && c ≤ 'Z' then Char.ofNat (c.toNat + 32) else c

/-- Python's clamping slice `s[a:b]` for non-negative `a`, `b`. -/
def pySlice (s : List Char) (a b : Nat) : List Char :=
  (s.take b).drop a

/-- Python's string repetition `s * n` (empty for non-positive `n`). -/
def pyStrMul (s : List Char) (n : Int) : List Char :=
  (List.replicate n.toNat s).flatten

/-- `TokenType` from src/src/stormatter/token.py. -/
inductive TokenType where
  | IDENT
  | STRING
  | CCONST
  | ICONST
  | FCONST
  | PUNCTUATOR
  | WHITESPACE
  | LINECOMMENT
  | BLOCKCOMMENT
  | EOF
deriving DecidableEq, Repr

/-- `Token` from src/src/stormatter/token.py. -/
structure Token where
  type : TokenType
  start_index : Nat
  end_index : Nat
  start_line : Nat
  start_col : Nat
  end_line : Nat
  end_col : Nat
deriving DecidableEq, Repr

/-- `Token.to_byte_slice` from src/src/stormatter/token.py: defensively
returns the empty string when the requested range is out of bounds. -/
def Token.to_byte_slice (t : Token) (source : List Char) : List Char :=
  if t.start_index ≥ source.length ∨ t.end_index > source.length then []
  else pySlice source t.start_index t.end_index

/-- `Lexer` state from src/src/stormatter/lexer.py.  The fields
`all_whitespace_on_this_line`, `bracket_level` and `bracket_level_stack`
are declared by the dataclass but never accessed by any method. -/
structure Lexer where
  source : List Char
  current_index : Nat := 0
  prev_index : Nat := 0
  line_number : Nat := 1
  prev_line_number : Nat := 1
  byte_offset : Nat := 0
  prev_byte_offset : Nat := 0
  all_whitespace_on_this_line : Bool := true
  bracket_level : Int := 0
  bracket_level_stack : List Int := []
  prev_token : Option Token := none

/-- A fresh `Lexer` over a source string (all dataclass defaults). -/
def Lexer.init (source : List Char) : Lexer := { source := source }

/-- `Lexer.is_in_bounds`. -/
def Lexer.is_in_bounds (l : Lexer) : Bool :=
  l.current_index < l.source.length

/-- `Lexer.advance`. -/
def Lexer.advance (l : Lexer) : Lexer :=
  { l with current_index := l.current_index + 1, byte_offset := l.byte_offset + 1 }

/-- `Lexer.advance_by`. -/
def Lexer.advance_by (l : Lexer) (count : Nat) : Lexer :=
  { l with current_index := l.current_index + count, byte_offset := l.byte_offset + count }

/-- `Lexer.match` with a single option and default `ignore_case=False`
(the only way the lexer itself uses it): an option that does not fit in
the remaining input never matches; otherwise the snippet is compared. -/
def matchAt (src : List Char) (i : Nat) (opt : List Char) : Bool :=
  decide (i + opt.length ≤ src.length) && (pySlice src i (i + opt.length) == opt)

/-- `Lexer.make_token`: build a token over `[prev_index, current_index)`
and advance the previous-boundary markers. -/
def Lexer.make_token (l : Lexer) (tok_type : TokenType) : Token × Lexer :=
  let token : Token :=
    { type := tok_type
      start_index := l.prev_index
      end_index := l.current_index
      start_line := l.prev_line_number
      start_col := l.prev_byte_offset
      end_line := l.line_number
      end_col := l.byte_offset }
  (token,
    { l with
      prev_token := some token
      prev_index := l.current_index
      prev_line_number := l.line_number
      prev_byte_offset := l.byte_offset })

/-- The `while self.is_in_bounds() and p(self.peek()): self.advance()`
loop shared by `identifier`, `string`, `number`, `whitespace` and
`line_comment`; fuel-structural, called with fuel `source.length`. -/
def Lexer.scanWhile (p : Char → Bool) : Nat → Lexer → Lexer
  | 0, l => l
  | fuel + 1, l =>
    if h : l.current_index < l.source.length then
      if p (l.source.get ⟨l.current_index, h⟩) then
        Lexer.scanWhile p fuel l.advance
      else l
    else l

/-- `Lexer.identifier`. -/
def Lexer.identifier (l : Lexer) : Token × Lexer :=
  (Lexer.scanWhile (fun c => pyIsAlnum c || c == '_') l.source.length l).make_token
    TokenType.IDENT

/-- `Lexer.string`: skip the opening quote, consume up to the closing
quote, then skip the (possibly absent) closing quote. -/
def Lexer.string (l : Lexer) : Token × Lexer :=
  ((Lexer.scanWhile (fun c => c != '"') l.source.length l.advance).advance).make_token
    TokenType.STRING

/-- `Lexer.number`. -/
def Lexer.number (l : Lexer) : Token × Lexer :=
  (Lexer.scanWhile pyIsDigit l.source.length l).make_token TokenType.ICONST

/-- `Lexer.punctuator`. -/
def Lexer.punctuator (l : Lexer) : Token × Lexer :=
  l.advance.make_token TokenType.PUNCTUATOR

/-- `Lexer.whitespace`. -/
def Lexer.whitespace (l : Lexer) : Token × Lexer :=
  (Lexer.scanWhile pyIsSpace l.source.length l).make_token TokenType.WHITESPACE

/-- `Lexer.line_comment` (the `ValueError` guard is unreachable from
`__next__`, which dispatches here only after `match("//")`). -/
def Lexer.line_comment (l : Lexer) : Token × Lexer :=
  (Lexer.scanWhile (fun c => !(c == '\r' || c == '\n')) l.source.length
      (l.advance_by 2)).make_token TokenType.LINECOMMENT

/-- The `while` loop of `Lexer.block_comment`: scan for `*/`, consuming
it when found, otherwise run to end of input. -/
def Lexer.blockCommentScan : Nat → Lexer → Lexer
  | 0, l => l
  | fuel + 1, l =>
    if l.current_index < l.source.length then
      if matchAt l.source l.current_index ['*', '/'] then l.advance_by 2
      else Lexer.blockCommentScan fuel l.advance
    else l

/-- `Lexer.block_comment` (the `ValueError` guard is unreachable from
`__next__`, which dispatches here only after `match("/*")`). -/
def Lexer.block_comment (l : Lexer) : Token × Lexer :=
  (Lexer.blockCommentScan l.source.length (l.advance_by 2)).make_token
    TokenType.BLOCKCOMMENT

/-- `Lexer.eof` (never invoked by `__next__`; iteration signals
exhaustion instead of emitting a sentinel token). -/
def Lexer.eof (l : Lexer) : Token × Lexer :=
  l.make_token TokenType.EOF

/-- The fixed punctuator set of `__next__`. -/
def punctuatorChars : List Char :=
  ['\x7b', '\x7d', '[', ']', '(', ')', ';', ',', '+', '-', '*', '/', '=',
   '%', '<', '>', '!', '&', '|', '^', '~']

/-- `Lexer.__next__`: `none` models `StopIteration`. -/
def Lexer.next (l : Lexer) : Option (Token × Lexer) :=
  if h : l.current_index < l.source.length then
    if matchAt l.source l.current_index ['/', '/'] then some l.line_comment
    else if matchAt l.source l.current_index ['/', '*'] then some l.block_comment
    else
      let char := l.source.get ⟨l.current_index, h⟩
      if pyIsSpace char then some l.whitespace
      else if pyIsAlpha char || char == '_' then some l.identifier
      else if pyIsDigit char then some l.number
      else if char == '"' then some l.string
      else if punctuatorChars.contains char then some l.punctuator
      else some (l.advance.make_token TokenType.PUNCTUATOR)
  else none

/-- `list(lexer)`: iterate `__next__` to exhaustion; fuel-structural,
`source.length` fuel suffices because every token is at least one
character wide. -/
def lexList : Nat → Lexer → List Token
  | 0, _ => []
  | fuel + 1, l =>
    match l.next with
    | none => []
    | some (t, l₂) => t :: lexList fuel l₂

/-- The token sequence obtained by iterating a fresh `Lexer` over a
source string. -/
def tokenize (source : List Char) : List Token :=
  lexList source.length (Lexer.init source)

/-- The opening-bracket texts `["{", "[", "("]` of the formatter. -/
def openerTexts : List (List Char) := [['\x7b'], ['['], ['(']]

/-- The closing-bracket texts `["}", "]", ")"]` of the formatter. -/
def closerTexts : List (List Char) := [['\x7d'], [']'], [')']]

/-- The characters of `"begin"`. -/
def beginChars : List Char := ['b', 'e', 'g', 'i', 'n']

/-- The characters of `"end"`. -/
def endChars : List Char := ['e', 'n', 'd']

/-- The legacy `Formatter` dataclass from src/src/stormatter/formatter.py
(after `__post_init__`, which materializes the token list). -/
structure Formatter where
  lexer : Lexer
  tab_display_size : Int
  use_tabs : Bool
  indent_section_blocks : Bool
  indent_level : Int
  output : List Char
  tokens : List Token
  current_token_index : Nat
  dedent_accounted_for : Bool

/-- Construction of the legacy `Formatter`: the field defaults of the
dataclass, with `__post_init__` pre-tokenizing the entire input. -/
def Formatter.init (lexer : Lexer) (tab_display_size : Int)
    (use_tabs indent_section_blocks : Bool) : Formatter :=
  { lexer := lexer
    tab_display_size := tab_display_size
    use_tabs := use_tabs
    indent_section_blocks := indent_section_blocks
    indent_level := 0
    output := []
    tokens := lexList lexer.source.length lexer
    current_token_index := 0
    dedent_accounted_for := false }

/-- `Formatter.peek_token` (the index is a `Nat`, so the `0 ≤ index`
half of the Python bounds check is automatic). -/
def Formatter.peek_token (f : Formatter) (offset : Nat) : Option Token :=
  f.tokens.get? (f.current_token_index + offset)

/-- `Formatter.consume_token`: consume and return the next token, or a
synthetic `EOF` token past the end of the list. -/
def Formatter.consume_token (f : Formatter) : Token × Formatter :=
  match f.tokens.get? f.current_token_index with
  | some token => (token, { f with current_token_index := f.current_token_index + 1 })
  | none => (⟨TokenType.EOF, 0, 0, 0, 0, 0, 0⟩, f)

/-- `Formatter.emit`. -/
def Formatter.emit (f : Formatter) (text : List Char) : Formatter :=
  { f with output := f.output ++ text }

/-- `Formatter.emit_indent`: `"\t" * indent_level`, or
`" " * indent_level * tab_display_size`. -/
def Formatter.emit_indent (f : Formatter) : Formatter :=
  if f.use_tabs then f.emit (pyStrMul ['\t'] f.indent_level)
  else f.emit (pyStrMul (pyStrMul [' '] f.indent_level) f.tab_display_size)

/-- `for _ in range(n): self.consume_token()`. -/
def Formatter.consume_n : Nat → Formatter → Formatter
  | 0, f => f
  | n + 1, f => Formatter.consume_n n f.consume_token.2

/-- The `while next_token and next_token.type == TokenType.WHITESPACE`
lookahead loop of the identifier branch; fuel-structural, called with
fuel `tokens.length`. -/
def Formatter.findNonWsOffset (f : Formatter) : Nat → Nat → Nat
  | 0, offset => offset
  | fuel + 1, offset =>
    match f.peek_token offset with
    | some next_token =>
      if next_token.type = TokenType.WHITESPACE then
        f.findNonWsOffset fuel (offset + 1)
      else offset
    | none => offset

/-- The WHITESPACE branch of the legacy `Formatter.format` loop body:
collapse a newline-containing run to one newline, run the dedent
lookahead, then emit the indentation; collapse any other run to one
space. -/
def Formatter.wsBranch (f : Formatter) (token_text : List Char) :
    Formatter × Bool :=
  if token_text.contains '\n' then
    let f := f.emit ['\n']
    let f :=
      match f.peek_token 0 with
      | some next_token =>
        if (next_token.type = TokenType.PUNCTUATOR ∧
              pySlice f.lexer.source next_token.start_index next_token.end_index
                ∈ closerTexts) ∨
            (f.indent_section_blocks = true ∧ next_token.type = TokenType.IDENT ∧
              (pySlice f.lexer.source next_token.start_index
                  next_token.end_index).map pyToLower = endChars) then
          { f with indent_level := max 0 (f.indent_level - 1),
                   dedent_accounted_for := true }
        else f
      | none => f
    (f.emit_indent, false)
  else (f.emit [' '], false)

/-- The IDENT branch of the legacy `Formatter.format` loop body:
`begin <ident>` / `end <ident>` handling when section blocks are
enabled, plain emission otherwise. -/
def Formatter.identBranch (f : Formatter) (token_text : List Char) :
    Formatter × Bool :=
  if f.indent_section_blocks = false then (f.emit token_text, false)
  else
    let offset := f.findNonWsOffset f.tokens.length 1
    match f.peek_token offset with
    | some next_token =>
      if next_token.type = TokenType.IDENT then
        let next_text :=
          pySlice f.lexer.source next_token.start_index next_token.end_index
        if token_text.map pyToLower = beginChars then
          let f := f.emit (token_text ++ [' '] ++ next_text)
          let f := (Formatter.consume_n offset f).consume_token.2
          ({ f with indent_level := f.indent_level + 1 }, false)
        else if token_text.map pyToLower = endChars then
          let f :=
            if f.dedent_accounted_for = false then
              { f with indent_level := max 0 (f.indent_level - 1) }
            else f
          let f := { f with dedent_accounted_for := false }
          let f := f.emit (token_text ++ [' '] ++ next_text)
          let f := (Formatter.consume_n offset f).consume_token.2
          (f, false)
        else (f.emit token_text, false)
      else (f.emit token_text, false)
    | none => (f.emit token_text, false)

/-- The PUNCTUATOR branch of the legacy `Formatter.format` loop body:
bracket-driven indentation. -/
def Formatter.punctBranch (f : Formatter) (token_text : List Char) :
    Formatter × Bool :=
  if token_text ∈ openerTexts then
    let f := f.emit token_text
    ({ f with indent_level := f.indent_level + 1 }, false)
  else if token_text ∈ closerTexts then
    let f :=
      if f.dedent_accounted_for = false then
        { f with indent_level := max 0 (f.indent_level - 1) }
      else f
    let f := { f with dedent_accounted_for := false }
    (f.emit token_text, false)
  else (f.emit token_text, false)

/-- One iteration of the `while` loop of the legacy `Formatter.format`;
the second component is `true` exactly when the iteration executed the
`break` of the `EOF` branch. -/
def Formatter.formatStep (f₀ : Formatter) : Formatter × Bool :=
  let token := f₀.consume_token.1
  let f := f₀.consume_token.2
  let token_text := pySlice f.lexer.source token.start_index token.end_index
  if token.type = TokenType.WHITESPACE then f.wsBranch token_text
  else if token.type = TokenType.IDENT then f.identBranch token_text
  else if token.type = TokenType.STRING then (f.emit token_text, false)
  else if token.type = TokenType.ICONST then (f.emit token_text, false)
  else if token.type = TokenType.FCONST then (f.emit token_text, false)
  else if token.type = TokenType.PUNCTUATOR then f.punctBranch token_text
  else if token.type = TokenType.LINECOMMENT then (f.emit token_text, false)
  else if token.type = TokenType.BLOCKCOMMENT then (f.emit token_text, false)
  else if token.type = TokenType.EOF then (f, true)
  else (f.emit token_text, false)

/-- The `while self.current_token_index < len(self.tokens)` loop of the
legacy `Formatter.format`; fuel-structural, `tokens.length` fuel
suffices because every iteration strictly advances the token cursor. -/
def Formatter.formatLoop : Nat → Formatter → Formatter
  | 0, f => f
  | fuel + 1, f =>
    if f.current_token_index < f.tokens.length then
      let s := f.formatStep
      if s.2 then s.1 else Formatter.formatLoop fuel s.1
    else f

/-- The legacy `Formatter.format`. -/
def Formatter.format (f : Formatter) : List Char :=
  (Formatter.formatLoop f.tokens.length f).output

/-- Formatting a source string with the legacy formatter under a given
configuration (the dataclass defaults are `4, true, false`). -/
def formatString (tab_display_size : Int) (use_tabs indent_section_blocks : Bool)
    (source : List Char) : List Char :=
  (Formatter.init (Lexer.init source) tab_display_size use_tabs
    indent_section_blocks).format

/-- `FormattedTokenOutput` from src/src/stormatter/formatting/formatter.py. -/
structure FormattedTokenOutput where
  token_type : TokenType
  text : List Char
deriving DecidableEq, Repr

/-- `"".join(token_output.text for token_output in formatted_tokens)`. -/
def joinTexts (outputs : List FormattedTokenOutput) : List Char :=
  (outputs.map (fun o => o.text)).flatten

namespace Formatting

/-- The current `Formatter` dataclass from
src/src/stormatter/formatting/formatter.py (after `__post_init__`).
It imports its `Lexer` and `Token` from `stormatter.parsing`, whose
`lexer.py` and `token.py` are not present under src/.  Modelled from the
spec: §3 and §4.1 specify a single Token data model and a single Lexer
contract, and §6 calls the Lexer "a shared leaf dependency", so this
embedding reuses the `Lexer`/`Token` embedded from
src/src/stormatter/lexer.py and token.py. -/
structure Formatter where
  lexer : Lexer
  tab_display_size : Int
  use_tabs : Bool
  indent_section_blocks : Bool
  indent_level : Int
  output_strs : List FormattedTokenOutput
  tokens : List Token
  current_token_index : Nat
  dedent_accounted_for : Bool

/-- Construction of the current `Formatter`: dataclass defaults plus
`__post_init__` pre-tokenization. -/
def Formatter.init (lexer : Lexer) (tab_display_size : Int)
    (use_tabs indent_section_blocks : Bool) : Formatter :=
  { lexer := lexer
    tab_display_size := tab_display_size
    use_tabs := use_tabs
    indent_section_blocks := indent_section_blocks
    indent_level := 0
    output_strs := []
    tokens := lexList lexer.source.length lexer
    current_token_index := 0
    dedent_accounted_for := false }

/-- `Formatter.peek_token` of the current variant. -/
def Formatter.peek_token (g : Formatter) (offset : Nat) : Option Token :=
  g.tokens.get? (g.current_token_index + offset)

/-- `Formatter.consume_token` of the current variant. -/
def Formatter.consume_token (g : Formatter) : Token × Formatter :=
  match g.tokens.get? g.current_token_index with
  | some token => (token, { g with current_token_index := g.current_token_index + 1 })
  | none => (⟨TokenType.EOF, 0, 0, 0, 0, 0, 0⟩, g)

/-- `Formatter.emit` of the current variant: append a
`FormattedTokenOutput` pair. -/
def Formatter.emit (g : Formatter) (token_type : TokenType) (text : List Char) :
    Formatter :=
  { g with output_strs := g.output_strs ++ [⟨token_type, text⟩] }

/-- `Formatter.emit_indent` of the current variant. -/
def Formatter.emit_indent (g : Formatter) : Formatter :=
  if g.use_tabs then g.emit TokenType.WHITESPACE (pyStrMul ['\t'] g.indent_level)
  else
    g.emit TokenType.WHITESPACE
      (pyStrMul (pyStrMul [' '] g.indent_level) g.tab_display_size)

/-- `for _ in range(n): self.consume_token()` of the current variant. -/
def Formatter.consume_n : Nat → Formatter → Formatter
  | 0, g => g
  | n + 1, g => Formatter.consume_n n g.consume_token.2

/-- The whitespace-skipping lookahead loop of the current variant. -/
def Formatter.findNonWsOffset (g : Formatter) : Nat → Nat → Nat
  | 0, offset => offset
  | fuel + 1, offset =>
    match g.peek_token offset with
    | some next_token =>
      if next_token.type = TokenType.WHITESPACE then
        g.findNonWsOffset fuel (offset + 1)
      else offset
    | none => offset

/-- The WHITESPACE branch of the current variant's loop body. -/
def Formatter.wsBranch (g : Formatter) (token_text : List Char) :
    Formatter × Bool :=
  if token_text.contains '\n' then
    let g := g.emit TokenType.WHITESPACE ['\n']
    let g :=
      match g.peek_token 0 with
      | some next_token =>
        if (next_token.type = TokenType.PUNCTUATOR ∧
              pySlice g.lexer.source next_token.start_index next_token.end_index
                ∈ closerTexts) ∨
            (g.indent_section_blocks = true ∧ next_token.type = TokenType.IDENT ∧
              (pySlice g.lexer.source next_token.start_index
                  next_token.end_index).map pyToLower = endChars) then
          { g with indent_level := max 0 (g.indent_level - 1),
                   dedent_accounted_for := true }
        else g
      | none => g
    (g.emit_indent, false)
  else (g.emit TokenType.WHITESPACE [' '], false)

/-- The IDENT branch of the current variant's loop body. -/
def Formatter.identBranch (g : Formatter) (token_text : List Char) :
    Formatter × Bool :=
  if g.indent_section_blocks = false then (g.emit TokenType.IDENT token_text, false)
  else
    let offset := g.findNonWsOffset g.tokens.length 1
    match g.peek_token offset with
    | some next_token =>
      if next_token.type = TokenType.IDENT then
        let next_text :=
          pySlice g.lexer.source next_token.start_index next_token.end_index
        if token_text.map pyToLower = beginChars then
          let g := g.emit TokenType.IDENT (token_text ++ [' '] ++ next_text)
          let g := (Formatter.consume_n offset g).consume_token.2
          ({ g with indent_level := g.indent_level + 1 }, false)
        else if token_text.map pyToLower = endChars then
          let g :=
            if g.dedent_accounted_for = false then
              { g with indent_level := max 0 (g.indent_level - 1) }
            else g
          let g := { g with dedent_accounted_for := false }
          let g := g.emit TokenType.IDENT (token_text ++ [' '] ++ next_text)
          let g := (Formatter.consume_n offset g).consume_token.2
          (g, false)
        else (g.emit TokenType.IDENT token_text, false)
      else (g.emit TokenType.IDENT token_text, false)
    | none => (g.emit TokenType.IDENT token_text, false)

/-- The PUNCTUATOR branch of the current variant's loop body. -/
def Formatter.punctBranch (g : Formatter) (token_text : List Char) :
    Formatter × Bool :=
  if token_text ∈ openerTexts then
    let g := g.emit TokenType.PUNCTUATOR token_text
    ({ g with indent_level := g.indent_level + 1 }, false)
  else if token_text ∈ closerTexts then
    let g :=
      if g.dedent_accounted_for = false then
        { g with indent_level := max 0 (g.indent_level - 1) }
      else g
    let g := { g with dedent_accounted_for := false }
    (g.emit TokenType.PUNCTUATOR token_text, false)
  else (g.emit TokenType.PUNCTUATOR token_text, false)

/-- One iteration of the `while` loop of the current variant's
`Formatter.format_tokens`. -/
def Formatter.formatStep (g₀ : Formatter) : Formatter × Bool :=
  let token := g₀.consume_token.1
  let g := g₀.consume_token.2
  let token_text := pySlice g.lexer.source token.start_index token.end_index
  if token.type = TokenType.WHITESPACE then g.wsBranch token_text
  else if token.type = TokenType.IDENT then g.identBranch token_text
  else if token.type = TokenType.STRING then (g.emit TokenType.STRING token_text, false)
  else if token.type = TokenType.ICONST then (g.emit TokenType.ICONST token_text, false)
  else if token.type = TokenType.FCONST then (g.emit TokenType.FCONST token_text, false)
  else if token.type = TokenType.PUNCTUATOR then g.punctBranch token_text
  else if token.type = TokenType.LINECOMMENT then
    (g.emit TokenType.LINECOMMENT token_text, false)
  else if token.type = TokenType.BLOCKCOMMENT then
    (g.emit TokenType.BLOCKCOMMENT token_text, false)
  else if token.type = TokenType.EOF then (g, true)
  else (g.emit token.type token_text, false)

/-- The token-processing loop of the current variant's
`Formatter.format_tokens`. -/
def Formatter.formatLoop : Nat → Formatter → Formatter
  | 0, g => g
  | fuel + 1, g =>
    if g.current_token_index < g.tokens.length then
      let s := g.formatStep
      if s.2 then s.1 else Formatter.formatLoop fuel s.1
    else g

/-- The current variant's `Formatter.format_tokens`. -/
def Formatter.format_tokens (g : Formatter) : List FormattedTokenOutput :=
  (Formatter.formatLoop g.tokens.length g).output_strs

/-- The current variant's `Formatter.format`: join the text fields of
`format_tokens`. -/
def Formatter.format (g : Formatter) : List Char :=
  joinTexts g.format_tokens

end Formatting

/-- The (token-kind, text) pairs produced for a source string by the
current variant under a given configuration. -/
def formatTokensString (tab_display_size : Int)
    (use_tabs indent_section_blocks : Bool) (source : List Char) :
    List FormattedTokenOutput :=
  (Formatting.Formatter.init (Lexer.init source) tab_display_size use_tabs
    indent_section_blocks).format_tokens

/-- The refinement map for C8: forget the token kinds of the current
variant's structured output, keeping its concatenated text, and view the
rest of the state as a legacy-formatter state. -/
def Formatting.Formatter.erase (g : Formatting.Formatter) : Stormatter.Formatter :=
  { lexer := g.lexer
    tab_display_size := g.tab_display_size
    use_tabs := g.use_tabs
    indent_section_blocks := g.indent_section_blocks
    indent_level := g.indent_level
    output := joinTexts g.output_strs
    tokens := g.tokens
    current_token_index := g.current_token_index
    dedent_accounted_for := g.dedent_accounted_for }

/-- The token list is gapless and overlap-free starting at index `i`:
the first token starts at `i` and every further token starts where its
predecessor ended. -/
def chainedFrom : Nat → List Token → Bool
  | _, [] => true
  | i, t :: ts => (t.start_index == i) && chainedFrom t.end_index ts

/-- Concatenation of the texts obtained by slicing the source with each
token's `[start_index, end_index)` range (Python slice semantics). -/
def sliceConcat (source : List Char) (tokens : List Token) : List Char :=
  (tokens.map (fun t => pySlice source t.start_index t.end_index)).flatten

/-- No two consecutive tokens of the list are both whitespace tokens. -/
def noConsecWs : List Token → Bool
  | [] => true
  | [_] => true
  | t :: t₂ :: ts =>
    !(t.type == TokenType.WHITESPACE && t₂.type == TokenType.WHITESPACE) &&
      noConsecWs (t₂ :: ts)

/-! ### Lexer lemmas -/

@[simp] theorem Lexer.advance_source (l : Lexer) : l.advance.source = l.source := rfl

@[simp] theorem Lexer.advance_current_index (l : Lexer) :
    l.advance.current_index = l.current_index + 1 := rfl

@[simp] theorem Lexer.advance_prev_index (l : Lexer) :
    l.advance.prev_index = l.prev_index := rfl

@[simp] theorem Lexer.advance_by_source (l : Lexer) (n : Nat) :
    (l.advance_by n).source = l.source := rfl

@[simp] theorem Lexer.advance_by_current_index (l : Lexer) (n : Nat) :
    (l.advance_by n).current_index = l.current_index + n := rfl

@[simp] theorem Lexer.advance_by_prev_index (l : Lexer) (n : Nat) :
    (l.advance_by n).prev_index = l.prev_index := rfl

theorem Lexer.scanWhile_fields (p : Char → Bool) (fuel : Nat) (l : Lexer) :
    (Lexer.scanWhile p fuel l).source = l.source ∧
    (Lexer.scanWhile p fuel l).prev_index = l.prev_index ∧
    l.current_index ≤ (Lexer.scanWhile p fuel l).current_index := by
  induction fuel generalizing l with
  | zero => exact ⟨rfl, rfl, Nat.le_refl _⟩
  | succ fuel ih =>
    simp only [Lexer.scanWhile]
    split
    · split
      · rcases ih l.advance with ⟨h1, h2, h3⟩
        rw [Lexer.advance_source] at h1
        rw [Lexer.advance_prev_index] at h2
        rw [Lexer.advance_current_index] at h3
        exact ⟨h1, h2, by omega⟩
      · exact ⟨rfl, rfl, Nat.le_refl _⟩
    · exact ⟨rfl, rfl, Nat.le_refl _⟩

theorem Lexer.scanWhile_bound (p : Char → Bool) (fuel : Nat) (l : Lexer)
    (h : l.current_index ≤ l.source.length) :
    (Lexer.scanWhile p fuel l).current_index ≤ l.source.length := by
  induction fuel generalizing l with
  | zero => exact h
  | succ fuel ih =>
    simp only [Lexer.scanWhile]
    split
    case isTrue hin =>
      split
      · have := ih l.advance (by rw [Lexer.advance_source, Lexer.advance_current_index]; omega)
        rw [Lexer.advance_source] at this
        exact this
      · exact h
    case isFalse hin => exact h

theorem Lexer.scanWhile_stop (p : Char → Bool) (fuel : Nat) (l : Lexer)
    (hfuel : l.source.length - l.current_index ≤ fuel) :
    ∀ c, l.source.get? (Lexer.scanWhile p fuel l).current_index = some c →
      p c = false := by
  induction fuel generalizing l with
  | zero =>
    intro c hc
    have hlen : l.source.length ≤ l.current_index := by omega
    simp only [Lexer.scanWhile] at hc
    rw [List.get?_eq_none.mpr hlen] at hc
    exact absurd hc (by simp)
  | succ fuel ih =>
    intro c hc
    simp only [Lexer.scanWhile] at hc
    split at hc
    case isTrue hin =>
      split at hc
      case isTrue hp =>
        have := ih l.advance
          (by rw [Lexer.advance_source, Lexer.advance_current_index]; omega) c
        rw [Lexer.advance_source] at this
        exact this hc
      case isFalse hp =>
        rw [List.get?_eq_get hin] at hc
        cases hc
        simpa using hp
    case isFalse hin =>
      rw [List.get?_eq_none.mpr (by omega)] at hc
      exact absurd hc (by simp)

theorem Lexer.scanWhile_progress (p : Char → Bool) (fuel : Nat) (l : Lexer)
    (hfuel : 1 ≤ fuel) (hin : l.current_index < l.source.length)
    (hp : p (l.source.get ⟨l.current_index, hin⟩) = true) :
    l.current_index < (Lexer.scanWhile p fuel l).current_index := by
  cases fuel with
  | zero => omega
  | succ fuel =>
    simp only [Lexer.scanWhile, dif_pos hin, if_pos hp]
    have := (Lexer.scanWhile_fields p fuel l.advance).2.2
    rw [Lexer.advance_current_index] at this
    omega

theorem matchAt_le {src : List Char} {i : Nat} {opt : List Char}
    (h : matchAt src i opt = true) : i + opt.length ≤ src.length := by
  simp only [matchAt, Bool.and_eq_true, decide_eq_true_eq] at h
  exact h.1

theorem Lexer.blockCommentScan_fields (fuel : Nat) (l : Lexer) :
    (Lexer.blockCommentScan fuel l).source = l.source ∧
    (Lexer.blockCommentScan fuel l).prev_index = l.prev_index ∧
    l.current_index ≤ (Lexer.blockCommentScan fuel l).current_index ∧
    (l.current_index ≤ l.source.length →
      (Lexer.blockCommentScan fuel l).current_index ≤ l.source.length) := by
  induction fuel generalizing l with
  | zero => exact ⟨rfl, rfl, Nat.le_refl _, fun h => h⟩
  | succ fuel ih =>
    simp only [Lexer.blockCommentScan]
    split
    case isTrue hin =>
      split
      case isTrue hm =>
        have hle := matchAt_le hm
        refine ⟨rfl, rfl, ?_, ?_⟩
        · rw [Lexer.advance_by_current_index]; omega
        · intro
          rw [Lexer.advance_by_current_index]
          simpa using hle
      case isFalse hm =>
        rcases ih l.advance with ⟨h1, h2, h3, h4⟩
        rw [Lexer.advance_source] at h1 h4
        rw [Lexer.advance_prev_index] at h2
        rw [Lexer.advance_current_index] at h3 h4
        exact ⟨h1, h2, by omega, fun h => h4 (by omega)⟩
    case isFalse hin => exact ⟨rfl, rfl, Nat.le_refl _, fun h => h⟩

theorem Lexer.make_token_spec (ls : Lexer) (tt : TokenType) :
    (ls.make_token tt).1.type = tt ∧
    (ls.make_token tt).1.start_index = ls.prev_index ∧
    (ls.make_token tt).1.end_index = ls.current_index ∧
    (ls.make_token tt).2.source = ls.source ∧
    (ls.make_token tt).2.prev_index = ls.current_index ∧
    (ls.make_token tt).2.current_index = ls.current_index := by
  simp [Lexer.make_token]

/-- What one successful `__next__` step guarantees, for a lexer whose
previous-boundary marker agrees with its cursor: the source is
preserved, the marker again agrees with the cursor, the produced token
spans exactly `[old cursor, new cursor)`, the cursor strictly advances,
it can pass the end of the source only by one and only for a `String`
token, and a `Whitespace` token consumes a maximal nonempty run. -/
abbrev NextTokenSpec (l : Lexer) (t : Token) (l₂ : Lexer) : Prop :=
  l₂.source = l.source ∧
  l₂.prev_index = l₂.current_index ∧
  t.start_index = l.current_index ∧
  t.end_index = l₂.current_index ∧
  l.current_index < l₂.current_index ∧
  l₂.current_index ≤ l.source.length + 1 ∧
  (t.type ≠ TokenType.STRING → l₂.current_index ≤ l.source.length) ∧
  (t.type = TokenType.WHITESPACE →
    ∀ c, l.source.get? l₂.current_index = some c → pyIsSpace c = false) ∧
  (t.type = TokenType.WHITESPACE →
    ∃ hin : l.current_index < l.source.length,
      pyIsSpace (l.source.get ⟨l.current_index, hin⟩) = true)

theorem Lexer.whitespace_spec (l : Lexer) (hwf : l.prev_index = l.current_index)
    (hin : l.current_index < l.source.length)
    (hp : pyIsSpace (l.source.get ⟨l.current_index, hin⟩) = true) :
    NextTokenSpec l l.whitespace.1 l.whitespace.2 := by
  obtain ⟨s1, s2, s3⟩ := Lexer.scanWhile_fields pyIsSpace l.source.length l
  have sb := Lexer.scanWhile_bound pyIsSpace l.source.length l (Nat.le_of_lt hin)
  have sp := Lexer.scanWhile_progress pyIsSpace l.source.length l (by omega) hin hp
  have st := Lexer.scanWhile_stop pyIsSpace l.source.length l (by omega)
  obtain ⟨m1, m2, m3, m4, m5, m6⟩ :=
    Lexer.make_token_spec (Lexer.scanWhile pyIsSpace l.source.length l)
      TokenType.WHITESPACE
  unfold Lexer.whitespace
  refine ⟨?_, ?_, ?_, ?_, ?_, ?_, ?_, ?_, ?_⟩
  · rw [m4, s1]
  · rw [m5, m6]
  · rw [m2, s2, hwf]
  · rw [m3, m6]
  · rw [m6]; exact sp
  · rw [m6]; omega
  · intro _; rw [m6]; exact sb
  · intro _ c hc
    rw [m6] at hc
    exact st c hc
  · intro _; exact ⟨hin, hp⟩

theorem Lexer.identifier_spec (l : Lexer) (hwf : l.prev_index = l.current_index)
    (hin : l.current_index < l.source.length)
    (hp : (pyIsAlpha (l.source.get ⟨l.current_index, hin⟩) ||
        (l.source.get ⟨l.current_index, hin⟩ == '_')) = true) :
    NextTokenSpec l l.identifier.1 l.identifier.2 := by
  have hp₂ : (fun c => pyIsAlnum c || c == '_') (l.source.get ⟨l.current_index, hin⟩)
      = true := by
    simp only [pyIsAlnum, Bool.or_eq_true] at hp ⊢
    rcases hp with h | h
    · exact Or.inl (Or.inl h)
    · exact Or.inr h
  obtain ⟨s1, s2, s3⟩ :=
    Lexer.scanWhile_fields (fun c => pyIsAlnum c || c == '_') l.source.length l
  have sb := Lexer.scanWhile_bound (fun c => pyIsAlnum c || c == '_')
    l.source.length l (Nat.le_of_lt hin)
  have sp := Lexer.scanWhile_progress (fun c => pyIsAlnum c || c == '_')
    l.source.length l (by omega) hin hp₂
  obtain ⟨m1, m2, m3, m4, m5, m6⟩ :=
    Lexer.make_token_spec
      (Lexer.scanWhile (fun c => pyIsAlnum c || c == '_') l.source.length l)
      TokenType.IDENT
  unfold Lexer.identifier
  refine ⟨?_, ?_, ?_, ?_, ?_, ?_, ?_, ?_, ?_⟩
  · rw [m4, s1]
  · rw [m5, m6]
  · rw [m2, s2, hwf]
  · rw [m3, m6]
  · rw [m6]; exact sp
  · rw [m6]; omega
  · intro _; rw [m6]; exact sb
  · intro hty; rw [m1] at hty; exact absurd hty (by decide)
  · intro hty; rw [m1] at hty; exact absurd hty (by decide)

theorem Lexer.number_spec (l : Lexer) (hwf : l.prev_index = l.current_index)
    (hin : l.current_index < l.source.length)
    (hp : pyIsDigit (l.source.get ⟨l.current_index, hin⟩) = true) :
    NextTokenSpec l l.number.1 l.number.2 := by
  obtain ⟨s1, s2, s3⟩ := Lexer.scanWhile_fields pyIsDigit l.source.length l
  have sb := Lexer.scanWhile_bound pyIsDigit l.source.length l (Nat.le_of_lt hin)
  have sp := Lexer.scanWhile_progress pyIsDigit l.source.length l (by omega) hin hp
  obtain ⟨m1, m2, m3, m4, m5, m6⟩ :=
    Lexer.make_token_spec (Lexer.scanWhile pyIsDigit l.source.length l)
      TokenType.ICONST
  unfold Lexer.number
  refine ⟨?_, ?_, ?_, ?_, ?_, ?_, ?_, ?_, ?_⟩
  · rw [m4, s1]
  · rw [m5, m6]
  · rw [m2, s2, hwf]
  · rw [m3, m6]
  · rw [m6]; exact sp
  · rw [m6]; omega
  · intro _; rw [m6]; exact sb
  · intro hty; rw [m1] at hty; exact absurd hty (by decide)
  · intro hty; rw [m1] at hty; exact absurd hty (by decide)

theorem Lexer.line_comment_spec (l : Lexer)
    (hwf : l.prev_index = l.current_index)
    (hm : matchAt l.source l.current_index ['/', '/'] = true) :
    NextTokenSpec l l.line_comment.1 l.line_comment.2 := by
  have hle : l.current_index + 2 ≤ l.source.length := by simpa using matchAt_le hm
  obtain ⟨s1, s2, s3⟩ :=
    Lexer.scanWhile_fields (fun c => !(c == '\r' || c == '\n')) l.source.length
      (l.advance_by 2)
  have sb := Lexer.scanWhile_bound (fun c => !(c == '\r' || c == '\n'))
    l.source.length (l.advance_by 2)
    (by rw [Lexer.advance_by_source, Lexer.advance_by_current_index]; omega)
  rw [Lexer.advance_by_source] at sb
  rw [Lexer.advance_by_source] at s1
  rw [Lexer.advance_by_prev_index] at s2
  rw [Lexer.advance_by_current_index] at s3
  obtain ⟨m1, m2, m3, m4, m5, m6⟩ :=
    Lexer.make_token_spec
      (Lexer.scanWhile (fun c => !(c == '\r' || c == '\n')) l.source.length
        (l.advance_by 2))
      TokenType.LINECOMMENT
  unfold Lexer.line_comment
  refine ⟨?_, ?_, ?_, ?_, ?_, ?_, ?_, ?_, ?_⟩
  · rw [m4, s1]
  · rw [m5, m6]
  · rw [m2, s2, hwf]
  · rw [m3, m6]
  · rw [m6]; omega
  · rw [m6]; omega
  · intro _; rw [m6]; exact sb
  · intro hty; rw [m1] at hty; exact absurd hty (by decide)
  · intro hty; rw [m1] at hty; exact absurd hty (by decide)

theorem Lexer.block_comment_spec (l : Lexer)
    (hwf : l.prev_index = l.current_index)
    (hm : matchAt l.source l.current_index ['/', '*'] = true) :
    NextTokenSpec l l.block_comment.1 l.block_comment.2 := by
  have hle : l.current_index + 2 ≤ l.source.length := by simpa using matchAt_le hm
  obtain ⟨s1, s2, s3, s4⟩ :=
    Lexer.blockCommentScan_fields l.source.length (l.advance_by 2)
  rw [Lexer.advance_by_source] at s1 s4
  rw [Lexer.advance_by_prev_index] at s2
  rw [Lexer.advance_by_current_index] at s3 s4
  obtain ⟨m1, m2, m3, m4, m5, m6⟩ :=
    Lexer.make_token_spec
      (Lexer.blockCommentScan l.source.length (l.advance_by 2))
      TokenType.BLOCKCOMMENT
  unfold Lexer.block_comment
  refine ⟨?_, ?_, ?_, ?_, ?_, ?_, ?_, ?_, ?_⟩
  · rw [m4, s1]
  · rw [m5, m6]
  · rw [m2, s2, hwf]
  · rw [m3, m6]
  · rw [m6]; omega
  · rw [m6]; have := s4 (by omega); omega
  · intro _; rw [m6]; exact s4 (by omega)
  · intro hty; rw [m1] at hty; exact absurd hty (by decide)
  · intro hty; rw [m1] at hty; exact absurd hty (by decide)

theorem Lexer.string_spec (l : Lexer) (hwf : l.prev_index = l.current_index)
    (hin : l.current_index < l.source.length) :
    NextTokenSpec l l.string.1 l.string.2 := by
  obtain ⟨s1, s2, s3⟩ :=
    Lexer.scanWhile_fields (fun c => c != '"') l.source.length l.advance
  have sb := Lexer.scanWhile_bound (fun c => c != '"') l.source.length l.advance
    (by rw [Lexer.advance_source, Lexer.advance_current_index]; omega)
  rw [Lexer.advance_source] at sb s1
  rw [Lexer.advance_prev_index] at s2
  rw [Lexer.advance_current_index] at s3
  obtain ⟨m1, m2, m3, m4, m5, m6⟩ :=
    Lexer.make_token_spec
      ((Lexer.scanWhile (fun c => c != '"') l.source.length l.advance).advance)
      TokenType.STRING
  unfold Lexer.string
  refine ⟨?_, ?_, ?_, ?_, ?_, ?_, ?_, ?_, ?_⟩
  · rw [m4, Lexer.advance_source, s1]
  · rw [m5, m6]
  · rw [m2, Lexer.advance_prev_index, s2, hwf]
  · rw [m3, m6]
  · rw [m6, Lexer.advance_current_index]; omega
  · rw [m6, Lexer.advance_current_index]; omega
  · intro hne; rw [m1] at hne; exact absurd rfl hne
  · intro hty; rw [m1] at hty; exact absurd hty (by decide)
  · intro hty; rw [m1] at hty; exact absurd hty (by decide)

theorem Lexer.punctuator_spec (l : Lexer)
    (hwf : l.prev_index = l.current_index)
    (hin : l.current_index < l.source.length) :
    NextTokenSpec l l.punctuator.1 l.punctuator.2 := by
  obtain ⟨m1, m2, m3, m4, m5, m6⟩ :=
    Lexer.make_token_spec l.advance TokenType.PUNCTUATOR
  unfold Lexer.punctuator
  refine ⟨?_, ?_, ?_, ?_, ?_, ?_, ?_, ?_, ?_⟩
  · rw [m4, Lexer.advance_source]
  · rw [m5, m6]
  · rw [m2, Lexer.advance_prev_index, hwf]
  · rw [m3, m6]
  · rw [m6, Lexer.advance_current_index]; omega
  · rw [m6, Lexer.advance_current_index]; omega
  · intro _; rw [m6, Lexer.advance_current_index]; omega
  · intro hty; rw [m1] at hty; exact absurd hty (by decide)
  · intro hty; rw [m1] at hty; exact absurd hty (by decide)

theorem Lexer.next_spec {l : Lexer} {t : Token} {l₂ : Lexer}
    (hwf : l.prev_index = l.current_index)
    (h : l.next = some (t, l₂)) : NextTokenSpec l t l₂ := by
  unfold Lexer.next at h
  split at h
  case isFalse => exact absurd h (by simp)
  case isTrue hin =>
    split at h
    case isTrue hm =>
      rw [Option.some.injEq] at h
      obtain ⟨ht, hl⟩ := Prod.ext_iff.mp h
      subst ht hl
      exact Lexer.line_comment_spec l hwf hm
    case isFalse hm1 =>
      split at h
      case isTrue hm =>
        rw [Option.some.injEq] at h
        obtain ⟨ht, hl⟩ := Prod.ext_iff.mp h
        subst ht hl
        exact Lexer.block_comment_spec l hwf hm
      case isFalse hm2 =>
        simp only [] at h
        split at h
        case isTrue hp =>
          rw [Option.some.injEq] at h
          obtain ⟨ht, hl⟩ := Prod.ext_iff.mp h
          subst ht hl
          exact Lexer.whitespace_spec l hwf hin hp
        case isFalse hp1 =>
          split at h
          case isTrue hp =>
            rw [Option.some.injEq] at h
            obtain ⟨ht, hl⟩ := Prod.ext_iff.mp h
            subst ht hl
            exact Lexer.identifier_spec l hwf hin hp
          case isFalse hp2 =>
            split at h
            case isTrue hp =>
              rw [Option.some.injEq] at h
              obtain ⟨ht, hl⟩ := Prod.ext_iff.mp h
              subst ht hl
              exact Lexer.number_spec l hwf hin hp
            case isFalse hp3 =>
              split at h
              case isTrue hp =>
                rw [Option.some.injEq] at h
                obtain ⟨ht, hl⟩ := Prod.ext_iff.mp h
                subst ht hl
                exact Lexer.string_spec l hwf hin
              case isFalse hp4 =>
                split at h
                case isTrue hp =>
                  rw [Option.some.injEq] at h
                  obtain ⟨ht, hl⟩ := Prod.ext_iff.mp h
                  subst ht hl
                  exact Lexer.punctuator_spec l hwf hin
                case isFalse hp5 =>
                  rw [Option.some.injEq] at h
                  obtain ⟨ht, hl⟩ := Prod.ext_iff.mp h
                  subst ht hl
                  exact Lexer.punctuator_spec l hwf hin

theorem Lexer.next_isSome {l : Lexer}
    (hin : l.current_index < l.source.length) : l.next.isSome := by
  simp only [Lexer.next, dif_pos hin]
  repeat' split
  all_goals simp

theorem Lexer.next_none {l : Lexer} (h : l.next = none) :
    l.source.length ≤ l.current_index := by
  by_contra hlt
  have := Lexer.next_isSome (l := l) (by omega)
  rw [h] at this
  exact absurd this (by simp)

theorem lexList_cons {fuel : Nat} {l : Lexer} {t : Token} {ts : List Token}
    (h : lexList fuel l = t :: ts) :
    ∃ fuel₂ l₂, l.next = some (t, l₂) ∧ ts = lexList fuel₂ l₂ := by
  cases fuel with
  | zero => exact absurd h (by simp [lexList])
  | succ fuel =>
    simp only [lexList] at h
    cases hn : l.next with
    | none => rw [hn] at h; exact absurd h (by simp)
    | some p =>
      obtain ⟨t₂, l₂⟩ := p
      rw [hn] at h
      simp only [List.cons.injEq] at h
      exact ⟨fuel, l₂, by rw [h.1], h.2.symm⟩

theorem pySlice_append (s : List Char) {i j : Nat} (hij : i ≤ j) :
    pySlice s i j ++ s.drop j = s.drop i := by
  unfold pySlice
  by_cases h : i ≤ (s.take j).length
  · conv_rhs => rw [← List.take_append_drop j s]
    rw [List.drop_append_of_le_length h]
  · rw [List.length_take] at h
    have h1 : (s.take j).drop i = [] :=
      List.drop_eq_nil_of_le (by rw [List.length_take]; omega)
    have h2 : s.drop j = [] := List.drop_eq_nil_of_le (by omega)
    have h3 : s.drop i = [] := List.drop_eq_nil_of_le (by omega)
    rw [h1, h2, h3]
    rfl

theorem lexList_spec (fuel : Nat) (l : Lexer)
    (hwf : l.prev_index = l.current_index) :
    chainedFrom l.current_index (lexList fuel l) = true ∧
    (∀ t ∈ lexList fuel l,
      t.start_index ≤ t.end_index ∧ t.end_index ≤ l.source.length + 1 ∧
        (t.type ≠ TokenType.STRING → t.end_index ≤ l.source.length)) ∧
    noConsecWs (lexList fuel l) = true ∧
    (l.source.length ≤ l.current_index + fuel →
      sliceConcat l.source (lexList fuel l) = l.source.drop l.current_index) := by
  induction fuel generalizing l with
  | zero =>
    refine ⟨rfl, by simp [lexList], rfl, ?_⟩
    intro hle
    have : l.source.drop l.current_index = [] := List.drop_eq_nil_of_le (by omega)
    rw [this]
    rfl
  | succ fuel ih =>
    cases hn : l.next with
    | none =>
      have hempty : lexList (fuel + 1) l = [] := by simp [lexList, hn]
      have hlen := Lexer.next_none hn
      refine ⟨by rw [hempty]; rfl, by rw [hempty]; simp, by rw [hempty]; rfl, ?_⟩
      intro _
      rw [hempty]
      have : l.source.drop l.current_index = [] := List.drop_eq_nil_of_le hlen
      rw [this]
      rfl
    | some p =>
      obtain ⟨t, l₂⟩ := p
      obtain ⟨c1, c2, c3, c4, c5, c6, c7, c8, c9⟩ := Lexer.next_spec hwf hn
      have hcons : lexList (fuel + 1) l = t :: lexList fuel l₂ := by
        simp [lexList, hn]
      obtain ⟨ih1, ih2, ih3, ih4⟩ := ih l₂ c2
      refine ⟨?_, ?_, ?_, ?_⟩
      · rw [hcons]
        simp only [chainedFrom, Bool.and_eq_true, beq_iff_eq]
        exact ⟨c3, by rw [c4]; exact ih1⟩
      · rw [hcons]
        intro u hu
        rcases List.mem_cons.mp hu with rfl | hu₂
        · rw [c3, c4]
          refine ⟨by omega, by omega, fun h => c7 h⟩
        · have := ih2 u hu₂
          rw [c1] at this
          exact this
      · rw [hcons]
        cases hrest : lexList fuel l₂ with
        | nil => rfl
        | cons t₂ ts₂ =>
          have ihn : noConsecWs (t₂ :: ts₂) = true := by rw [← hrest]; exact ih3
          show (!(t.type == TokenType.WHITESPACE &&
              t₂.type == TokenType.WHITESPACE) &&
              noConsecWs (t₂ :: ts₂)) = true
          rw [ihn, Bool.and_true]
          by_cases hws : t.type = TokenType.WHITESPACE
          · have hne₂ : t₂.type ≠ TokenType.WHITESPACE := by
              intro hws₂
              obtain ⟨fuel₃, l₃, hn₂, _⟩ := lexList_cons hrest
              obtain ⟨_, _, _, _, _, _, _, _, d9⟩ := Lexer.next_spec c2 hn₂
              obtain ⟨hin₂, hsp⟩ := d9 hws₂
              have hget0 : l₂.source.get? l₂.current_index =
                  some (l₂.source.get ⟨l₂.current_index, hin₂⟩) :=
                List.get?_eq_get hin₂
              rw [← c1] at c8
              have hfalse := c8 hws _ hget0
              rw [hsp] at hfalse
              exact absurd hfalse (by simp)
            simp [hne₂]
          · simp [hws]
      · intro hle
        rw [hcons]
        have hrest := ih4 (by rw [c1]; omega)
        rw [c1] at hrest
        simp only [sliceConcat, List.map_cons, List.flatten_cons]
        have : (List.map (fun u => pySlice l.source u.start_index u.end_index)
            (lexList fuel l₂)).flatten = l.source.drop l₂.current_index := hrest
        rw [this, c3, c4]
        exact pySlice_append l.source (by omega)

@[simp] theorem Lexer.init_source (source : List Char) :
    (Lexer.init source).source = source := rfl

@[simp] theorem Lexer.init_current_index (source : List Char) :
    (Lexer.init source).current_index = 0 := rfl

@[simp] theorem Lexer.init_prev_index (source : List Char) :
    (Lexer.init source).prev_index = 0 := rfl

/-! ### Claim theorems: lexer -/

/-- C1: For every input string, the token sequence produced by iterating
the Lexer covers the source exactly: the first token starts at byte
offset 0, each token's start offset equals the previous token's end
offset, and the concatenation of the texts obtained by slicing the
source with each token's `[start_index, end_index)` range (Python slice
semantics, exactly as the formatter slices) equals the full input
string, with no gaps or overlaps. -/
theorem C1_lexer_coverage (source : List Char) :
    chainedFrom 0 (tokenize source) = true ∧
    sliceConcat source (tokenize source) = source := by
  obtain ⟨h1, _, _, h4⟩ := lexList_spec source.length (Lexer.init source) rfl
  constructor
  · exact h1
  · have := h4 (by simp)
    simpa [tokenize] using this

/-- C2 counterexample: lexing the one-character source `"` (an
unterminated string) produces a String token with `end_index = 2`,
strictly greater than `len(source) = 1`; so not every token satisfies
`end_index ≤ len(source)`. -/
theorem C2_counterexample :
    ¬ ∀ t ∈ tokenize ['"'], t.end_index ≤ (['"'] : List Char).length := by
  decide

/-- C2 (amended): every token produced by the Lexer satisfies
`0 ≤ start_index ≤ end_index ≤ len(source) + 1`, and
`end_index ≤ len(source)` for every non-String token; only a String
token produced from a source whose final quote is unterminated exceeds
the source length, by exactly one (the `string()` rule consumes to end
of input and then still skips the absent closing quote). -/
theorem C2_token_bounds (source : List Char) (t : Token)
    (h : t ∈ tokenize source) :
    t.start_index ≤ t.end_index ∧ t.end_index ≤ source.length + 1 ∧
      (t.type ≠ TokenType.STRING → t.end_index ≤ source.length) := by
  obtain ⟨_, h2, _, _⟩ := lexList_spec source.length (Lexer.init source) rfl
  have := h2 t h
  simpa using this

/-- Witness for C2_token_bounds at the concrete source `"a"` and its
single token. -/
theorem C2_token_bounds_witness :
    (⟨TokenType.IDENT, 0, 1, 1, 0, 1, 1⟩ : Token).start_index ≤
        (⟨TokenType.IDENT, 0, 1, 1, 0, 1, 1⟩ : Token).end_index ∧
      (⟨TokenType.IDENT, 0, 1, 1, 0, 1, 1⟩ : Token).end_index ≤
        (['a'] : List Char).length + 1 ∧
      ((⟨TokenType.IDENT, 0, 1, 1, 0, 1, 1⟩ : Token).type ≠ TokenType.STRING →
        (⟨TokenType.IDENT, 0, 1, 1, 0, 1, 1⟩ : Token).end_index ≤
          (['a'] : List Char).length) :=
  C2_token_bounds ['a'] ⟨TokenType.IDENT, 0, 1, 1, 0, 1, 1⟩ (by decide)

/-- C10: for every input string, the Lexer never produces two
consecutive WHITESPACE tokens (each whitespace token consumes a maximal
run), so when the formatter handles a whitespace token, the single-token
`peek_token()` lookahead it performs sees a non-whitespace token
whenever a next token exists. -/
theorem C10_no_consecutive_whitespace (source : List Char) :
    noConsecWs (tokenize source) = true :=
  (lexList_spec source.length (Lexer.init source) rfl).2.2.1

/-- C9: `Token.to_byte_slice` never raises on any token and any source
string (it is a total function in this embedding, mirroring the
defensive bounds check of the code): whenever the token's range is out
of bounds (`start_index ≥ len(source)` or `end_index > len(source)`) it
returns the empty string, and otherwise it returns the Python slice
`source[start_index:end_index]`. -/
theorem C9_to_byte_slice_defensive (t : Token) (source : List Char) :
    (t.start_index ≥ source.length ∨ t.end_index > source.length →
      t.to_byte_slice source = []) ∧
    (t.start_index < source.length ∧ t.end_index ≤ source.length →
      t.to_byte_slice source = pySlice source t.start_index t.end_index) := by
  constructor
  · intro h
    simp only [Token.to_byte_slice]
    rw [if_pos h]
  · intro h
    simp only [Token.to_byte_slice]
    rw [if_neg (by omega)]

/-- Witness for C9 at a concrete out-of-range token and a concrete
in-range token over the source `"ab"`. -/
theorem C9_witness :
    (⟨TokenType.IDENT, 5, 9, 1, 0, 1, 0⟩ : Token).to_byte_slice ['a', 'b'] = [] ∧
    (⟨TokenType.IDENT, 0, 2, 1, 0, 1, 0⟩ : Token).to_byte_slice ['a', 'b'] =
      pySlice ['a', 'b']
        (⟨TokenType.IDENT, 0, 2, 1, 0, 1, 0⟩ : Token).start_index
        (⟨TokenType.IDENT, 0, 2, 1, 0, 1, 0⟩ : Token).end_index :=
  ⟨(C9_to_byte_slice_defensive ⟨TokenType.IDENT, 5, 9, 1, 0, 1, 0⟩ ['a', 'b']).1
      (by decide),
    (C9_to_byte_slice_defensive ⟨TokenType.IDENT, 0, 2, 1, 0, 1, 0⟩ ['a', 'b']).2
      (by decide)⟩

/-! ### Claim theorems: concrete formatting runs -/

/-- C5: with the default configuration (`use_tabs=true`,
`indent_section_blocks=false`, `tab_display_size=4`), formatting the
nested-bracket input yields exactly the expected output: nested open
brackets add one indent level each, and each closing bracket line is
emitted at the dedented level without a double dedent. -/
theorem C5_nested_brackets :
    formatString 4 true false
        ("if (x > 5) \x7b\n  if (y < 10) \x7b\n    int z = x + y;\n  \x7d\n\x7d".toList) =
      ("if (x > 5) \x7b\n\tif (y < 10) \x7b\n\t\tint z = x + y;\n\t\x7d\n\x7d".toList) := by
  decide

/-- C6: with `indent_section_blocks=true` and `use_tabs=true`,
`begin section` opens one indent level, `end section` closes it, and the
newline-triggered dedent lookahead sets the one-shot flag so the `end`
handler does not decrement a second time. -/
theorem C6_section_blocks :
    formatString 4 true true
        ("begin section\nvalue x = 10;\nend section".toList) =
      ("begin section\n\tvalue x = 10;\nend section".toList) := by
  decide

/-- C7 counterexample: with the default configuration, formatting is not
idempotent in general: for the input `"//\r{\n"` the first pass turns
the carriage-return whitespace into a plain space, gluing the `{` into
the line comment, so the second pass loses the indent of the trailing
newline. -/
theorem C7_counterexample :
    formatString 4 true false
        (formatString 4 true false ("//\r\x7b\n".toList)) ≠
      formatString 4 true false ("//\r\x7b\n".toList) := by
  decide

/-- C7 (amended): with the default configuration, formatting the
already-clean input `"int x = 10;"` reproduces it unchanged, and a
second formatting pass on it is also unchanged; general idempotence
`format(format(s)) = format(s)` fails (see the counterexample). -/
theorem C7_idempotent_on_clean_input :
    formatString 4 true false ("int x = 10;".toList) = ("int x = 10;".toList) ∧
    formatString 4 true false
        (formatString 4 true false ("int x = 10;".toList)) =
      formatString 4 true false ("int x = 10;".toList) := by
  decide

/-! ### Formatter lemmas (legacy variant) -/

@[simp] theorem Formatter.emit_tokens (f : Formatter) (text : List Char) :
    (f.emit text).tokens = f.tokens := rfl

@[simp] theorem Formatter.emit_current_token_index (f : Formatter)
    (text : List Char) :
    (f.emit text).current_token_index = f.current_token_index := rfl

@[simp] theorem Formatter.emit_indent_level (f : Formatter) (text : List Char) :
    (f.emit text).indent_level = f.indent_level := rfl

@[simp] theorem Formatter.emit_dedent_accounted_for (f : Formatter)
    (text : List Char) :
    (f.emit text).dedent_accounted_for = f.dedent_accounted_for := rfl

@[simp] theorem Formatter.emit_indent_tokens (f : Formatter) :
    f.emit_indent.tokens = f.tokens := by
  unfold Formatter.emit_indent; split <;> rfl

@[simp] theorem Formatter.emit_indent_current_token_index (f : Formatter) :
    f.emit_indent.current_token_index = f.current_token_index := by
  unfold Formatter.emit_indent; split <;> rfl

@[simp] theorem Formatter.emit_indent_indent_level (f : Formatter) :
    f.emit_indent.indent_level = f.indent_level := by
  unfold Formatter.emit_indent; split <;> rfl

@[simp] theorem Formatter.emit_indent_dedent_accounted_for (f : Formatter) :
    f.emit_indent.dedent_accounted_for = f.dedent_accounted_for := by
  unfold Formatter.emit_indent; split <;> rfl

@[simp] theorem Formatter.consume_token_snd_tokens (f : Formatter) :
    f.consume_token.2.tokens = f.tokens := by
  unfold Formatter.consume_token; split <;> rfl

@[simp] theorem Formatter.consume_token_snd_indent_level (f : Formatter) :
    f.consume_token.2.indent_level = f.indent_level := by
  unfold Formatter.consume_token; split <;> rfl

@[simp] theorem Formatter.consume_token_snd_dedent_accounted_for (f : Formatter) :
    f.consume_token.2.dedent_accounted_for = f.dedent_accounted_for := by
  unfold Formatter.consume_token; split <;> rfl

theorem Formatter.consume_token_snd_current_mono (f : Formatter) :
    f.current_token_index ≤ f.consume_token.2.current_token_index := by
  unfold Formatter.consume_token
  split
  · exact Nat.le_succ _
  · exact Nat.le_refl _

theorem Formatter.consume_token_snd_current_lt (f : Formatter)
    (h : f.current_token_index < f.tokens.length) :
    f.current_token_index < f.consume_token.2.current_token_index := by
  unfold Formatter.consume_token
  rw [List.get?_eq_get h]
  exact Nat.lt_succ_self _

@[simp] theorem Formatter.consume_n_tokens (n : Nat) (f : Formatter) :
    (Formatter.consume_n n f).tokens = f.tokens := by
  induction n generalizing f with
  | zero => rfl
  | succ n ih => rw [Formatter.consume_n, ih, Formatter.consume_token_snd_tokens]

@[simp] theorem Formatter.consume_n_indent_level (n : Nat) (f : Formatter) :
    (Formatter.consume_n n f).indent_level = f.indent_level := by
  induction n generalizing f with
  | zero => rfl
  | succ n ih =>
    rw [Formatter.consume_n, ih, Formatter.consume_token_snd_indent_level]

@[simp] theorem Formatter.consume_n_dedent_accounted_for (n : Nat) (f : Formatter) :
    (Formatter.consume_n n f).dedent_accounted_for = f.dedent_accounted_for := by
  induction n generalizing f with
  | zero => rfl
  | succ n ih =>
    rw [Formatter.consume_n, ih, Formatter.consume_token_snd_dedent_accounted_for]

theorem Formatter.consume_n_current_mono (n : Nat) (f : Formatter) :
    f.current_token_index ≤ (Formatter.consume_n n f).current_token_index := by
  induction n generalizing f with
  | zero => exact Nat.le_refl _
  | succ n ih =>
    rw [Formatter.consume_n]
    exact Nat.le_trans (Formatter.consume_token_snd_current_mono f) (ih _)

theorem Formatter.consume_after_mono (k : Nat) (g : Formatter) :
    g.current_token_index ≤
      ((Formatter.consume_n k g).consume_token.2).current_token_index :=
  Nat.le_trans (Formatter.consume_n_current_mono k g)
    (Formatter.consume_token_snd_current_mono _)

theorem Formatter.wsBranch_fst_current_token_index (f : Formatter)
    (tt : List Char) :
    (f.wsBranch tt).1.current_token_index = f.current_token_index := by
  unfold Formatter.wsBranch
  unfold_let
  split
  · split
    · split <;> simp
    · simp
  · simp

theorem Formatter.wsBranch_fst_indent_nonneg (f : Formatter) (tt : List Char)
    (h : 0 ≤ f.indent_level) : 0 ≤ (f.wsBranch tt).1.indent_level := by
  unfold Formatter.wsBranch
  unfold_let
  split
  · split
    · split
      · simp
      · simpa using h
    · simpa using h
  · simpa using h

theorem Formatter.identBranch_fst_current_mono (f : Formatter) (tt : List Char) :
    f.current_token_index ≤ (f.identBranch tt).1.current_token_index := by
  unfold Formatter.identBranch
  unfold_let
  split
  · simp
  · split
    · split
      · split
        · refine Nat.le_trans ?_ (Formatter.consume_after_mono _ _)
          simp
        · split
          · split
            · refine Nat.le_trans ?_ (Formatter.consume_after_mono _ _)
              simp
            · refine Nat.le_trans ?_ (Formatter.consume_after_mono _ _)
              simp
          · simp
      · simp
    · simp

theorem Formatter.identBranch_fst_indent_nonneg (f : Formatter) (tt : List Char)
    (h : 0 ≤ f.indent_level) : 0 ≤ (f.identBranch tt).1.indent_level := by
  unfold Formatter.identBranch
  unfold_let
  split
  · simpa using h
  · split
    · split
      · split
        · simp
          omega
        · split
          · split
            · simp
            · simpa using h
          · simpa using h
      · simpa using h
    · simpa using h

theorem Formatter.punctBranch_fst_current_token_index (f : Formatter)
    (tt : List Char) :
    (f.punctBranch tt).1.current_token_index = f.current_token_index := by
  unfold Formatter.punctBranch
  unfold_let
  split
  · simp
  · split
    · split <;> simp
    · simp

theorem Formatter.punctBranch_fst_indent_nonneg (f : Formatter) (tt : List Char)
    (h : 0 ≤ f.indent_level) : 0 ≤ (f.punctBranch tt).1.indent_level := by
  unfold Formatter.punctBranch
  unfold_let
  split
  · simp
    omega
  · split
    · split
      · simp
      · simpa using h
    · simpa using h

theorem Formatter.formatStep_progress (f₀ : Formatter)
    (h : f₀.current_token_index < f₀.tokens.length) :
    f₀.current_token_index < f₀.formatStep.1.current_token_index := by
  have hlt := Formatter.consume_token_snd_current_lt f₀ h
  unfold Formatter.formatStep
  unfold_let
  split
  · rw [Formatter.wsBranch_fst_current_token_index]
    exact hlt
  split
  · exact Nat.lt_of_lt_of_le hlt (Formatter.identBranch_fst_current_mono _ _)
  split
  · simpa using hlt
  split
  · simpa using hlt
  split
  · simpa using hlt
  split
  · rw [Formatter.punctBranch_fst_current_token_index]
    exact hlt
  split
  · simpa using hlt
  split
  · simpa using hlt
  split
  · exact hlt
  · simpa using hlt

theorem Formatter.formatStep_indent_nonneg (f₀ : Formatter)
    (h : 0 ≤ f₀.indent_level) :
    0 ≤ f₀.formatStep.1.indent_level := by
  have hc : 0 ≤ f₀.consume_token.2.indent_level := by
    rw [Formatter.consume_token_snd_indent_level]
    exact h
  unfold Formatter.formatStep
  unfold_let
  split
  · exact Formatter.wsBranch_fst_indent_nonneg _ _ hc
  split
  · exact Formatter.identBranch_fst_indent_nonneg _ _ hc
  split
  · simpa using hc
  split
  · simpa using hc
  split
  · simpa using hc
  split
  · exact Formatter.punctBranch_fst_indent_nonneg _ _ hc
  split
  · simpa using hc
  split
  · simpa using hc
  split
  · exact hc
  · simpa using hc

/-- C3: formatting is total and terminating.  (i) Every successful
`Lexer.__next__` step from a boundary-consistent state strictly
increases the cursor index (and preserves boundary consistency), and
iteration stops (`StopIteration`) exactly when the source is exhausted;
(ii) every formatter loop iteration taken while tokens remain strictly
advances the token cursor (so the fuelled loops of this embedding never
run out of fuel and the Python loops terminate); (iii) the empty string
produces empty output under every configuration. -/
theorem C3_total_and_terminating :
    (∀ l : Lexer, l.prev_index = l.current_index →
      match l.next with
      | some (_, l₂) =>
        l.current_index < l₂.current_index ∧ l₂.prev_index = l₂.current_index
      | none => l.source.length ≤ l.current_index) ∧
    (∀ f : Formatter, f.current_token_index < f.tokens.length →
      f.current_token_index < f.formatStep.1.current_token_index) ∧
    (∀ (tab_display_size : Int) (use_tabs indent_section_blocks : Bool),
      formatString tab_display_size use_tabs indent_section_blocks [] = []) := by
  refine ⟨?_, fun f h => Formatter.formatStep_progress f h, fun _ _ _ => rfl⟩
  intro l hwf
  cases hn : l.next with
  | none => exact Lexer.next_none hn
  | some p =>
    obtain ⟨t, l₂⟩ := p
    obtain ⟨_, c2, _, _, c5, _⟩ := Lexer.next_spec hwf hn
    exact ⟨c5, c2⟩

/-- Witness for C3 at the concrete source `"a"` and the default
configuration. -/
theorem C3_witness :
    (match (Lexer.init ['a']).next with
      | some (_, l₂) =>
        (Lexer.init ['a']).current_index < l₂.current_index ∧
          l₂.prev_index = l₂.current_index
      | none =>
        (Lexer.init ['a']).source.length ≤ (Lexer.init ['a']).current_index) ∧
    (Formatter.init (Lexer.init ['a']) 4 true false).current_token_index <
      ((Formatter.init (Lexer.init ['a']) 4 true false).formatStep).1.current_token_index :=
  ⟨C3_total_and_terminating.1 (Lexer.init ['a']) rfl,
    C3_total_and_terminating.2.1 (Formatter.init (Lexer.init ['a']) 4 true false)
      (by decide)⟩

/-- C4: throughout every run of the legacy `Formatter.format`, on any
input and configuration, `indent_level` is non-negative: it starts at 0,
every loop iteration preserves non-negativity (each of the three
decrement sites clamps at zero via `max(0, indent_level - 1)`), and
hence every state reached after any number of iterations from a fresh
formatter has a non-negative indent level. -/
theorem C4_indent_nonneg :
    (∀ f : Formatter, 0 ≤ f.indent_level → 0 ≤ f.formatStep.1.indent_level) ∧
    (∀ (fuel : Nat) (f : Formatter), 0 ≤ f.indent_level →
      0 ≤ (Formatter.formatLoop fuel f).indent_level) ∧
    (∀ (lexer : Lexer) (tab_display_size : Int)
        (use_tabs indent_section_blocks : Bool) (fuel : Nat),
      0 ≤ (Formatter.formatLoop fuel
        (Formatter.init lexer tab_display_size use_tabs
          indent_section_blocks)).indent_level) := by
  have hloop : ∀ (fuel : Nat) (f : Formatter), 0 ≤ f.indent_level →
      0 ≤ (Formatter.formatLoop fuel f).indent_level := by
    intro fuel
    induction fuel with
    | zero => exact fun f h => h
    | succ fuel ih =>
      intro f h
      rw [Formatter.formatLoop]
      split
      · unfold_let
        split
        · exact Formatter.formatStep_indent_nonneg f h
        · exact ih _ (Formatter.formatStep_indent_nonneg f h)
      · exact h
  exact ⟨fun f h => Formatter.formatStep_indent_nonneg f h, hloop,
    fun lexer tab ut isb fuel => hloop fuel _ (le_refl 0)⟩

/-- Witness for C4 at the concrete source `"a"` and the default
configuration. -/
theorem C4_witness :
    0 ≤ ((Formatter.init (Lexer.init ['a']) 4 true false).formatStep).1.indent_level ∧
    0 ≤ (Formatter.formatLoop 1
        (Formatter.init (Lexer.init ['a']) 4 true false)).indent_level :=
  ⟨C4_indent_nonneg.1 (Formatter.init (Lexer.init ['a']) 4 true false) (by decide),
    C4_indent_nonneg.2.1 1 (Formatter.init (Lexer.init ['a']) 4 true false)
      (by decide)⟩

/-! ### C8: the two duplicated formatter implementations are equivalent -/

@[simp] theorem Formatting.Formatter.erase_lexer (g : Formatting.Formatter) :
    g.erase.lexer = g.lexer := rfl

@[simp] theorem Formatting.Formatter.erase_tab_display_size
    (g : Formatting.Formatter) :
    g.erase.tab_display_size = g.tab_display_size := rfl

@[simp] theorem Formatting.Formatter.erase_use_tabs (g : Formatting.Formatter) :
    g.erase.use_tabs = g.use_tabs := rfl

@[simp] theorem Formatting.Formatter.erase_indent_section_blocks
    (g : Formatting.Formatter) :
    g.erase.indent_section_blocks = g.indent_section_blocks := rfl

@[simp] theorem Formatting.Formatter.erase_indent_level
    (g : Formatting.Formatter) :
    g.erase.indent_level = g.indent_level := rfl

@[simp] theorem Formatting.Formatter.erase_output (g : Formatting.Formatter) :
    g.erase.output = joinTexts g.output_strs := rfl

@[simp] theorem Formatting.Formatter.erase_tokens (g : Formatting.Formatter) :
    g.erase.tokens = g.tokens := rfl

@[simp] theorem Formatting.Formatter.erase_current_token_index
    (g : Formatting.Formatter) :
    g.erase.current_token_index = g.current_token_index := rfl

@[simp] theorem Formatting.Formatter.erase_dedent_accounted_for
    (g : Formatting.Formatter) :
    g.erase.dedent_accounted_for = g.dedent_accounted_for := rfl

theorem joinTexts_append (xs : List FormattedTokenOutput)
    (o : FormattedTokenOutput) :
    joinTexts (xs ++ [o]) = joinTexts xs ++ o.text := by
  simp [joinTexts]

theorem Formatting.Formatter.peek_erase (g : Formatting.Formatter) (off : Nat) :
    g.erase.peek_token off = g.peek_token off := rfl

@[simp] theorem Formatting.Formatter.emit_tokens_ft (g : Formatting.Formatter)
    (k : TokenType) (text : List Char) : (g.emit k text).tokens = g.tokens := rfl

@[simp] theorem Formatting.Formatter.emit_current_token_index_ft
    (g : Formatting.Formatter) (k : TokenType) (text : List Char) :
    (g.emit k text).current_token_index = g.current_token_index := rfl

@[simp] theorem Formatting.Formatter.emit_indent_level_ft (g : Formatting.Formatter)
    (k : TokenType) (text : List Char) :
    (g.emit k text).indent_level = g.indent_level := rfl

@[simp] theorem Formatting.Formatter.emit_dedent_accounted_for_ft
    (g : Formatting.Formatter) (k : TokenType) (text : List Char) :
    (g.emit k text).dedent_accounted_for = g.dedent_accounted_for := rfl

@[simp] theorem Formatting.Formatter.emit_lexer_ft (g : Formatting.Formatter)
    (k : TokenType) (text : List Char) : (g.emit k text).lexer = g.lexer := rfl

@[simp] theorem Formatter.emit_lexer (f : Formatter)
    (text : List Char) : (f.emit text).lexer = f.lexer := rfl

@[simp] theorem Formatting.Formatter.consume_token_snd_tokens_ft
    (g : Formatting.Formatter) : g.consume_token.2.tokens = g.tokens := by
  unfold Formatting.Formatter.consume_token; split <;> rfl

@[simp] theorem Formatting.Formatter.consume_token_snd_indent_level_ft
    (g : Formatting.Formatter) :
    g.consume_token.2.indent_level = g.indent_level := by
  unfold Formatting.Formatter.consume_token; split <;> rfl

@[simp] theorem Formatting.Formatter.consume_token_snd_dedent_accounted_for_ft
    (g : Formatting.Formatter) :
    g.consume_token.2.dedent_accounted_for = g.dedent_accounted_for := by
  unfold Formatting.Formatter.consume_token; split <;> rfl

@[simp] theorem Formatting.Formatter.consume_token_snd_lexer_ft
    (g : Formatting.Formatter) : g.consume_token.2.lexer = g.lexer := by
  unfold Formatting.Formatter.consume_token; split <;> rfl

@[simp] theorem Formatter.consume_token_snd_lexer (f : Formatter) :
    f.consume_token.2.lexer = f.lexer := by
  unfold Stormatter.Formatter.consume_token; split <;> rfl

@[simp] theorem Formatting.Formatter.consume_n_indent_level_ft (n : Nat)
    (g : Formatting.Formatter) :
    (Formatting.Formatter.consume_n n g).indent_level = g.indent_level := by
  induction n generalizing g with
  | zero => rfl
  | succ n ih =>
    rw [Formatting.Formatter.consume_n, ih,
      Formatting.Formatter.consume_token_snd_indent_level_ft]

@[simp] theorem Formatter.consume_n_lexer (n : Nat) (f : Formatter) :
    (Stormatter.Formatter.consume_n n f).lexer = f.lexer := by
  induction n generalizing f with
  | zero => rfl
  | succ n ih =>
    rw [Stormatter.Formatter.consume_n, ih,
      Stormatter.Formatter.consume_token_snd_lexer]

@[simp] theorem Formatting.Formatter.consume_n_dedent_accounted_for_ft (n : Nat)
    (g : Formatting.Formatter) :
    (Formatting.Formatter.consume_n n g).dedent_accounted_for =
      g.dedent_accounted_for := by
  induction n generalizing g with
  | zero => rfl
  | succ n ih =>
    rw [Formatting.Formatter.consume_n, ih,
      Formatting.Formatter.consume_token_snd_dedent_accounted_for_ft]

@[simp] theorem Formatting.Formatter.consume_n_lexer_ft (n : Nat)
    (g : Formatting.Formatter) :
    (Formatting.Formatter.consume_n n g).lexer = g.lexer := by
  induction n generalizing g with
  | zero => rfl
  | succ n ih =>
    rw [Formatting.Formatter.consume_n, ih,
      Formatting.Formatter.consume_token_snd_lexer_ft]

theorem Formatting.Formatter.consume_fst_erase (g : Formatting.Formatter) :
    g.erase.consume_token.1 = g.consume_token.1 := by
  unfold Stormatter.Formatter.consume_token Formatting.Formatter.consume_token
  simp only [Formatting.Formatter.erase_tokens,
    Formatting.Formatter.erase_current_token_index]
  cases h : g.tokens.get? g.current_token_index with
  | none => rfl
  | some tok => rfl

theorem Formatting.Formatter.consume_snd_erase (g : Formatting.Formatter) :
    g.erase.consume_token.2 = (g.consume_token.2).erase := by
  unfold Stormatter.Formatter.consume_token Formatting.Formatter.consume_token
  simp only [Formatting.Formatter.erase_tokens,
    Formatting.Formatter.erase_current_token_index]
  cases h : g.tokens.get? g.current_token_index with
  | none => rfl
  | some tok => rfl

theorem Formatting.Formatter.consume_n_erase (n : Nat)
    (g : Formatting.Formatter) :
    Stormatter.Formatter.consume_n n g.erase = (Formatting.Formatter.consume_n n g).erase := by
  induction n generalizing g with
  | zero => rfl
  | succ n ih =>
    rw [Stormatter.Formatter.consume_n, Formatting.Formatter.consume_n,
      Formatting.Formatter.consume_snd_erase g]
    exact ih _

theorem Formatting.Formatter.findNonWsOffset_erase (g : Formatting.Formatter)
    (fuel : Nat) : ∀ off : Nat,
    g.erase.findNonWsOffset fuel off = g.findNonWsOffset fuel off := by
  induction fuel with
  | zero => intro off; rfl
  | succ fuel ih =>
    intro off
    rw [Stormatter.Formatter.findNonWsOffset, Formatting.Formatter.findNonWsOffset,
      Formatting.Formatter.peek_erase]
    cases hp : g.peek_token off with
    | none => rfl
    | some t =>
      simp only []
      by_cases ht : t.type = TokenType.WHITESPACE
      · rw [if_pos ht, if_pos ht]
        exact ih _
      · rw [if_neg ht, if_neg ht]

theorem Formatting.Formatter.emit_erase (g : Formatting.Formatter)
    (k : TokenType) (text : List Char) :
    (g.emit k text).erase = g.erase.emit text := by
  unfold Formatting.Formatter.emit Stormatter.Formatter.emit Formatting.Formatter.erase
  simp [joinTexts]

theorem Formatting.Formatter.emit_indent_erase (g : Formatting.Formatter) :
    g.emit_indent.erase = g.erase.emit_indent := by
  unfold Formatting.Formatter.emit_indent Stormatter.Formatter.emit_indent
  simp only [Formatting.Formatter.erase_use_tabs,
    Formatting.Formatter.erase_indent_level,
    Formatting.Formatter.erase_tab_display_size]
  by_cases hu : g.use_tabs = true
  · rw [if_pos hu, if_pos hu]
    exact Formatting.Formatter.emit_erase g _ _
  · rw [if_neg hu, if_neg hu]
    exact Formatting.Formatter.emit_erase g _ _

theorem Formatting.Formatter.wsBranch_erase (g : Formatting.Formatter)
    (tt : List Char) :
    (g.wsBranch tt).1.erase = (g.erase.wsBranch tt).1 ∧
    (g.wsBranch tt).2 = (g.erase.wsBranch tt).2 := by
  obtain ⟨lx, tab, ut, isb, ind, outs, toks, idx, ded⟩ := g
  unfold Formatting.Formatter.wsBranch Stormatter.Formatter.wsBranch
    Formatting.Formatter.emit_indent Stormatter.Formatter.emit_indent
    Formatting.Formatter.erase Formatting.Formatter.emit
    Stormatter.Formatter.emit Formatting.Formatter.peek_token
    Stormatter.Formatter.peek_token
  simp only []
  by_cases hn : tt.contains '\n' = true
  · rw [if_pos hn, if_pos hn]
    cases hp : toks.get? (idx + 0) with
    | none => by_cases hu : ut = true <;> simp [hu, joinTexts]
    | some nt =>
      simp only []
      split
      · split
        · by_cases hu : ut = true <;> simp [hu, joinTexts]
        · by_cases hu : ut = true <;> simp [hu, joinTexts]
      · split
        · by_cases hu : ut = true <;> simp [hu, joinTexts]
        · by_cases hu : ut = true <;> simp [hu, joinTexts]
  · rw [if_neg hn, if_neg hn]
    simp [joinTexts]

theorem Formatting.Formatter.erase_update_indent (g : Formatting.Formatter)
    (v : Int) :
    ({ g with indent_level := v } : Formatting.Formatter).erase =
      { g.erase with indent_level := v } := rfl

theorem Formatting.Formatter.erase_update_dedent (g : Formatting.Formatter)
    (d : Bool) :
    ({ g with dedent_accounted_for := d } : Formatting.Formatter).erase =
      { g.erase with dedent_accounted_for := d } := rfl

theorem Formatting.Formatter.erase_update_indent_dedent (g : Formatting.Formatter)
    (v : Int) (d : Bool) :
    ({ g with indent_level := v, dedent_accounted_for := d } :
        Formatting.Formatter).erase =
      { g.erase with indent_level := v, dedent_accounted_for := d } := rfl

theorem Formatting.Formatter.identBranch_erase (g : Formatting.Formatter)
    (tt : List Char) :
    (g.identBranch tt).1.erase = (g.erase.identBranch tt).1 ∧
    (g.identBranch tt).2 = (g.erase.identBranch tt).2 := by
  unfold Formatting.Formatter.identBranch Stormatter.Formatter.identBranch
  simp only [Formatting.Formatter.erase_indent_section_blocks,
    Formatting.Formatter.erase_tokens, Formatting.Formatter.erase_lexer,
    Formatting.Formatter.findNonWsOffset_erase, Formatting.Formatter.peek_erase]
  by_cases hs : g.indent_section_blocks = false
  · rw [if_pos hs, if_pos hs]
    exact ⟨Formatting.Formatter.emit_erase g _ _, rfl⟩
  · rw [if_neg hs, if_neg hs]
    cases hp : g.peek_token (g.findNonWsOffset g.tokens.length 1) with
    | none => exact ⟨Formatting.Formatter.emit_erase g _ _, rfl⟩
    | some nt =>
      simp only []
      by_cases hid : nt.type = TokenType.IDENT
      · rw [if_pos hid, if_pos hid]
        by_cases hb : tt.map pyToLower = beginChars
        · rw [if_pos hb, if_pos hb]
          refine ⟨?_, rfl⟩
          simp only [Formatting.Formatter.erase_update_indent,
            ← Formatting.Formatter.consume_snd_erase,
            ← Formatting.Formatter.consume_n_erase,
            Formatting.Formatter.emit_erase,
            Formatting.Formatter.consume_token_snd_indent_level_ft,
            Formatting.Formatter.consume_n_indent_level_ft,
            Formatting.Formatter.emit_indent_level_ft,
            Stormatter.Formatter.consume_token_snd_indent_level,
            Stormatter.Formatter.consume_n_indent_level,
            Stormatter.Formatter.emit_indent_level,
            Formatting.Formatter.erase_indent_level,
            Formatting.Formatter.erase_update_indent_dedent,
            Formatting.Formatter.erase_lexer,
            Formatting.Formatter.erase_tab_display_size,
            Formatting.Formatter.erase_use_tabs,
            Formatting.Formatter.erase_indent_section_blocks,
            Formatting.Formatter.erase_output,
            Formatting.Formatter.erase_tokens,
            Formatting.Formatter.erase_current_token_index,
            Formatting.Formatter.erase_dedent_accounted_for,
            Formatting.Formatter.consume_token_snd_dedent_accounted_for_ft,
            Formatting.Formatter.consume_n_dedent_accounted_for_ft,
            Formatting.Formatter.emit_dedent_accounted_for_ft,
            Stormatter.Formatter.consume_token_snd_dedent_accounted_for,
            Stormatter.Formatter.consume_n_dedent_accounted_for,
            Stormatter.Formatter.emit_dedent_accounted_for]
        · rw [if_neg hb, if_neg hb]
          by_cases he : tt.map pyToLower = endChars
          · rw [if_pos he, if_pos he]
            refine ⟨?_, rfl⟩
            by_cases hd : g.dedent_accounted_for = false
            · rw [if_pos hd, if_pos (by simpa using hd)]
              simp only [Formatting.Formatter.erase_update_dedent,
                Formatting.Formatter.erase_update_indent,
                ← Formatting.Formatter.consume_snd_erase,
                ← Formatting.Formatter.consume_n_erase,
                Formatting.Formatter.emit_erase,
                Formatting.Formatter.consume_token_snd_indent_level_ft,
            Formatting.Formatter.consume_n_indent_level_ft,
            Formatting.Formatter.emit_indent_level_ft,
            Stormatter.Formatter.consume_token_snd_indent_level,
            Stormatter.Formatter.consume_n_indent_level,
            Stormatter.Formatter.emit_indent_level,
            Formatting.Formatter.erase_indent_level,
            Formatting.Formatter.erase_update_indent_dedent,
            Formatting.Formatter.erase_lexer,
            Formatting.Formatter.erase_tab_display_size,
            Formatting.Formatter.erase_use_tabs,
            Formatting.Formatter.erase_indent_section_blocks,
            Formatting.Formatter.erase_output,
            Formatting.Formatter.erase_tokens,
            Formatting.Formatter.erase_current_token_index,
            Formatting.Formatter.erase_dedent_accounted_for,
            Formatting.Formatter.consume_token_snd_dedent_accounted_for_ft,
            Formatting.Formatter.consume_n_dedent_accounted_for_ft,
            Formatting.Formatter.emit_dedent_accounted_for_ft,
            Stormatter.Formatter.consume_token_snd_dedent_accounted_for,
            Stormatter.Formatter.consume_n_dedent_accounted_for,
            Stormatter.Formatter.emit_dedent_accounted_for]
            · rw [if_neg hd, if_neg (by simpa using hd)]
              simp only [Formatting.Formatter.erase_update_dedent,
                ← Formatting.Formatter.consume_snd_erase,
                ← Formatting.Formatter.consume_n_erase,
                Formatting.Formatter.emit_erase,
                Formatting.Formatter.consume_token_snd_indent_level_ft,
            Formatting.Formatter.consume_n_indent_level_ft,
            Formatting.Formatter.emit_indent_level_ft,
            Stormatter.Formatter.consume_token_snd_indent_level,
            Stormatter.Formatter.consume_n_indent_level,
            Stormatter.Formatter.emit_indent_level,
            Formatting.Formatter.erase_indent_level,
            Formatting.Formatter.erase_update_indent_dedent,
            Formatting.Formatter.erase_lexer,
            Formatting.Formatter.erase_tab_display_size,
            Formatting.Formatter.erase_use_tabs,
            Formatting.Formatter.erase_indent_section_blocks,
            Formatting.Formatter.erase_output,
            Formatting.Formatter.erase_tokens,
            Formatting.Formatter.erase_current_token_index,
            Formatting.Formatter.erase_dedent_accounted_for,
            Formatting.Formatter.consume_token_snd_dedent_accounted_for_ft,
            Formatting.Formatter.consume_n_dedent_accounted_for_ft,
            Formatting.Formatter.emit_dedent_accounted_for_ft,
            Stormatter.Formatter.consume_token_snd_dedent_accounted_for,
            Stormatter.Formatter.consume_n_dedent_accounted_for,
            Stormatter.Formatter.emit_dedent_accounted_for]
          · rw [if_neg he, if_neg he]
            exact ⟨Formatting.Formatter.emit_erase g _ _, rfl⟩
      · rw [if_neg hid, if_neg hid]
        exact ⟨Formatting.Formatter.emit_erase g _ _, rfl⟩

theorem Formatting.Formatter.punctBranch_erase (g : Formatting.Formatter)
    (tt : List Char) :
    (g.punctBranch tt).1.erase = (g.erase.punctBranch tt).1 ∧
    (g.punctBranch tt).2 = (g.erase.punctBranch tt).2 := by
  unfold Formatting.Formatter.punctBranch Stormatter.Formatter.punctBranch
  by_cases ho : tt ∈ openerTexts
  · rw [if_pos ho, if_pos ho]
    refine ⟨?_, rfl⟩
    simp only [Formatting.Formatter.erase_update_indent,
      Formatting.Formatter.emit_erase,
      Formatting.Formatter.consume_token_snd_indent_level_ft,
            Formatting.Formatter.consume_n_indent_level_ft,
            Formatting.Formatter.emit_indent_level_ft,
            Stormatter.Formatter.consume_token_snd_indent_level,
            Stormatter.Formatter.consume_n_indent_level,
            Stormatter.Formatter.emit_indent_level,
            Formatting.Formatter.erase_indent_level,
            Formatting.Formatter.erase_update_indent_dedent,
            Formatting.Formatter.erase_lexer,
            Formatting.Formatter.erase_tab_display_size,
            Formatting.Formatter.erase_use_tabs,
            Formatting.Formatter.erase_indent_section_blocks,
            Formatting.Formatter.erase_output,
            Formatting.Formatter.erase_tokens,
            Formatting.Formatter.erase_current_token_index,
            Formatting.Formatter.erase_dedent_accounted_for,
            Formatting.Formatter.consume_token_snd_dedent_accounted_for_ft,
            Formatting.Formatter.consume_n_dedent_accounted_for_ft,
            Formatting.Formatter.emit_dedent_accounted_for_ft,
            Stormatter.Formatter.consume_token_snd_dedent_accounted_for,
            Stormatter.Formatter.consume_n_dedent_accounted_for,
            Stormatter.Formatter.emit_dedent_accounted_for]
  · rw [if_neg ho, if_neg ho]
    by_cases hc : tt ∈ closerTexts
    · rw [if_pos hc, if_pos hc]
      refine ⟨?_, rfl⟩
      by_cases hd : g.dedent_accounted_for = false
      · rw [if_pos hd, if_pos (by simpa using hd)]
        simp only [Formatting.Formatter.erase_update_dedent,
          Formatting.Formatter.erase_update_indent,
          Formatting.Formatter.emit_erase,
          Formatting.Formatter.consume_token_snd_indent_level_ft,
            Formatting.Formatter.consume_n_indent_level_ft,
            Formatting.Formatter.emit_indent_level_ft,
            Stormatter.Formatter.consume_token_snd_indent_level,
            Stormatter.Formatter.consume_n_indent_level,
            Stormatter.Formatter.emit_indent_level,
            Formatting.Formatter.erase_indent_level,
            Formatting.Formatter.erase_update_indent_dedent,
            Formatting.Formatter.erase_lexer,
            Formatting.Formatter.erase_tab_display_size,
            Formatting.Formatter.erase_use_tabs,
            Formatting.Formatter.erase_indent_section_blocks,
            Formatting.Formatter.erase_output,
            Formatting.Formatter.erase_tokens,
            Formatting.Formatter.erase_current_token_index,
            Formatting.Formatter.erase_dedent_accounted_for,
            Formatting.Formatter.consume_token_snd_dedent_accounted_for_ft,
            Formatting.Formatter.consume_n_dedent_accounted_for_ft,
            Formatting.Formatter.emit_dedent_accounted_for_ft,
            Stormatter.Formatter.consume_token_snd_dedent_accounted_for,
            Stormatter.Formatter.consume_n_dedent_accounted_for,
            Stormatter.Formatter.emit_dedent_accounted_for]
      · rw [if_neg hd, if_neg (by simpa using hd)]
        simp only [Formatting.Formatter.erase_update_dedent,
          Formatting.Formatter.emit_erase,
          Formatting.Formatter.consume_token_snd_indent_level_ft,
            Formatting.Formatter.consume_n_indent_level_ft,
            Formatting.Formatter.emit_indent_level_ft,
            Stormatter.Formatter.consume_token_snd_indent_level,
            Stormatter.Formatter.consume_n_indent_level,
            Stormatter.Formatter.emit_indent_level,
            Formatting.Formatter.erase_indent_level,
            Formatting.Formatter.erase_update_indent_dedent,
            Formatting.Formatter.erase_lexer,
            Formatting.Formatter.erase_tab_display_size,
            Formatting.Formatter.erase_use_tabs,
            Formatting.Formatter.erase_indent_section_blocks,
            Formatting.Formatter.erase_output,
            Formatting.Formatter.erase_tokens,
            Formatting.Formatter.erase_current_token_index,
            Formatting.Formatter.erase_dedent_accounted_for,
            Formatting.Formatter.consume_token_snd_dedent_accounted_for_ft,
            Formatting.Formatter.consume_n_dedent_accounted_for_ft,
            Formatting.Formatter.emit_dedent_accounted_for_ft,
            Stormatter.Formatter.consume_token_snd_dedent_accounted_for,
            Stormatter.Formatter.consume_n_dedent_accounted_for,
            Stormatter.Formatter.emit_dedent_accounted_for]
    · rw [if_neg hc, if_neg hc]
      exact ⟨Formatting.Formatter.emit_erase g _ _, rfl⟩

theorem Formatting.Formatter.formatStep_erase (g : Formatting.Formatter) :
    g.formatStep.1.erase = g.erase.formatStep.1 ∧
    g.formatStep.2 = g.erase.formatStep.2 := by
  unfold Formatting.Formatter.formatStep Stormatter.Formatter.formatStep
  unfold_let
  simp only [Formatting.Formatter.consume_fst_erase,
    Formatting.Formatter.consume_snd_erase, Formatting.Formatter.erase_lexer]
  by_cases h1 : g.consume_token.1.type = TokenType.WHITESPACE
  · rw [if_pos h1, if_pos h1]
    exact Formatting.Formatter.wsBranch_erase _ _
  rw [if_neg h1, if_neg h1]
  by_cases h2 : g.consume_token.1.type = TokenType.IDENT
  · rw [if_pos h2, if_pos h2]
    exact Formatting.Formatter.identBranch_erase _ _
  rw [if_neg h2, if_neg h2]
  by_cases h3 : g.consume_token.1.type = TokenType.STRING
  · rw [if_pos h3, if_pos h3]
    exact ⟨Formatting.Formatter.emit_erase _ _ _, rfl⟩
  rw [if_neg h3, if_neg h3]
  by_cases h4 : g.consume_token.1.type = TokenType.ICONST
  · rw [if_pos h4, if_pos h4]
    exact ⟨Formatting.Formatter.emit_erase _ _ _, rfl⟩
  rw [if_neg h4, if_neg h4]
  by_cases h5 : g.consume_token.1.type = TokenType.FCONST
  · rw [if_pos h5, if_pos h5]
    exact ⟨Formatting.Formatter.emit_erase _ _ _, rfl⟩
  rw [if_neg h5, if_neg h5]
  by_cases h6 : g.consume_token.1.type = TokenType.PUNCTUATOR
  · rw [if_pos h6, if_pos h6]
    exact Formatting.Formatter.punctBranch_erase _ _
  rw [if_neg h6, if_neg h6]
  by_cases h7 : g.consume_token.1.type = TokenType.LINECOMMENT
  · rw [if_pos h7, if_pos h7]
    exact ⟨Formatting.Formatter.emit_erase _ _ _, rfl⟩
  rw [if_neg h7, if_neg h7]
  by_cases h8 : g.consume_token.1.type = TokenType.BLOCKCOMMENT
  · rw [if_pos h8, if_pos h8]
    exact ⟨Formatting.Formatter.emit_erase _ _ _, rfl⟩
  rw [if_neg h8, if_neg h8]
  by_cases h9 : g.consume_token.1.type = TokenType.EOF
  · rw [if_pos h9, if_pos h9]
    exact ⟨rfl, rfl⟩
  rw [if_neg h9, if_neg h9]
  exact ⟨Formatting.Formatter.emit_erase _ _ _, rfl⟩

theorem Formatting.Formatter.formatLoop_erase (fuel : Nat)
    (g : Formatting.Formatter) :
    (Formatting.Formatter.formatLoop fuel g).erase =
      Stormatter.Formatter.formatLoop fuel g.erase := by
  induction fuel generalizing g with
  | zero => rfl
  | succ fuel ih =>
    rw [Formatting.Formatter.formatLoop, Stormatter.Formatter.formatLoop]
    simp only [Formatting.Formatter.erase_tokens,
      Formatting.Formatter.erase_current_token_index]
    by_cases hg : g.current_token_index < g.tokens.length
    · rw [if_pos hg, if_pos hg]
      unfold_let
      obtain ⟨hs1, hs2⟩ := Formatting.Formatter.formatStep_erase g
      rw [← hs2, ← hs1]
      by_cases hb : g.formatStep.2 = true
      · rw [if_pos hb, if_pos hb]
      · rw [if_neg hb, if_neg hb]
        exact ih _
    · rw [if_neg hg, if_neg hg]

/-- C8: the two duplicated formatter implementations are equivalent: for
every source string and every configuration, the string returned by the
legacy string-building `Formatter.format` equals the concatenation of
the `text` fields of the `(token-kind, text)` pairs returned by the
current variant's `Formatter.format_tokens`. -/
theorem C8_formatters_equivalent (source : List Char) (tab_display_size : Int)
    (use_tabs indent_section_blocks : Bool) :
    formatString tab_display_size use_tabs indent_section_blocks source =
      joinTexts (formatTokensString tab_display_size use_tabs
        indent_section_blocks source) := by
  unfold formatString formatTokensString Stormatter.Formatter.format
    Formatting.Formatter.format_tokens
  have hinit : (Formatting.Formatter.init (Lexer.init source) tab_display_size
        use_tabs indent_section_blocks).erase =
      Formatter.init (Lexer.init source) tab_display_size use_tabs
        indent_section_blocks := rfl
  rw [← hinit, ← Formatting.Formatter.formatLoop_erase]
  rw [Formatting.Formatter.erase_tokens, Formatting.Formatter.erase_output]

end Stormatter
